import Mathlib

/-!
# gotraining `13-http/api/app/app.go`: middleware chaining and the dispatch adapter

A shallow embedding of `app.go` and the properties of its middleware chain
(`Use`, `wrap`) and of the per-request function mounted by `Handle`.

Go functions that are handed to the framework (`Handler`, `Middleware`) may
read and write the program state and perform observable calls.  They are
embedded as functions on an arbitrary state type `σ` that also return the list
of observable events (of an arbitrary type `β`) they performed.  A run in which
such a function panics or diverges is outside the model.  The framework code
itself runs in `Eff`, which adds the one way the framework code can panic by
itself: a slice index out of range.
-/

namespace GoTraining

/-! ## Values -/

/-- A non-nil Go `error` value; the `error` results of the source are
`Option GoError`, with `none` for `nil`. -/
structure GoError where
  msg : String
deriving DecidableEq, Repr

/-- Source: `ErrNotFound = errors.New("No user(s) found")`. -/
def ErrNotFound : GoError := ⟨"No user(s) found"⟩

/-- Source: `ErrInvalidID = errors.New("ID is not in it's proper form")`. -/
def ErrInvalidID : GoError := ⟨"ID is not in it's proper form"⟩

/-- Source: `ErrValidation = errors.New("Validation errors occurred")`. -/
def ErrValidation : GoError := ⟨"Validation errors occurred"⟩

/-- The handle returned by `GetSession()`. -/
abbrev SessionHandle := Nat

/-- The fields of the composite literal `Context{...}` in `Handle`
(`http.ResponseWriter` and `*http.Request` are kept abstract). -/
structure Context where
  Session : SessionHandle
  ResponseWriter : Nat
  Request : String
  Params : List (String × String)
  SessionID : String
deriving DecidableEq, Repr

/-! ## Effects -/

/-- What a returning Go function leaves behind: its result, the state after it
and the observable events it performed, oldest first. -/
structure Ran (σ ε α : Type) where
  val : α
  st : σ
  evs : List ε

/-- Source: `type Handler func(*Context) error`.  The Context is handed over
as a value: the adapter builds it once per request and no property below looks
at its fields after the handler has run. -/
abbrev Handler (σ β : Type) := Context → σ → Ran σ β (Option GoError)

/-- Source: `type Middleware func(Handler) Handler`.  Applying a middleware is
a Go call like any other, so it has access to the state and to the handler it
is given. -/
abbrev Middleware (σ β : Type) := Handler σ β → σ → Ran σ β (Handler σ β)

/-- How a piece of framework code ends: it returns a value, or it panics on a
slice index out of range. -/
inductive Outcome (α : Type) where
  | ret (a : α)
  | indexOutOfRange

/-- The result of running framework code from a state. -/
structure Res (σ ε α : Type) where
  out : Outcome α
  st : σ
  evs : List ε

/-- Framework code: a state transformer that logs events and may panic. -/
def Eff (σ ε α : Type) := σ → Res σ ε α

namespace Eff

variable {σ ε ε₂ α γ : Type}

/-- Return without effect. -/
def ret (a : α) : Eff σ ε α := fun s => ⟨.ret a, s, []⟩

/-- Sequencing: a panic of the first part skips the second. -/
def andThen (m : Eff σ ε α) (f : α → Eff σ ε γ) : Eff σ ε γ := fun s =>
  match m s with
  | ⟨.ret a, s₁, e₁⟩ =>
    match f a s₁ with
    | ⟨o, s₂, e₂⟩ => ⟨o, s₂, e₁ ++ e₂⟩
  | ⟨.indexOutOfRange, s₁, e₁⟩ => ⟨.indexOutOfRange, s₁, e₁⟩

instance : Monad (Eff σ ε) where
  pure := ret
  bind := andThen

/-- The panic of an index expression out of range. -/
def outOfRange : Eff σ ε α := fun s => ⟨.indexOutOfRange, s, []⟩

/-- A call of a Go function value that was handed to the framework. -/
def call (f : σ → Ran σ ε α) : Eff σ ε α := fun s =>
  match f s with
  | ⟨a, s₁, e₁⟩ => ⟨.ret a, s₁, e₁⟩

/-- Relabel the events of a computation. -/
def mapEvs (g : ε → ε₂) (m : Eff σ ε α) : Eff σ ε₂ α := fun s =>
  match m s with
  | ⟨o, s₁, e₁⟩ => ⟨o, s₁, e₁.map g⟩

/-- Go `defer fin; body`: `fin` runs when `body` is left, whether `body`
returned or panicked, and the outcome is that of `body`. -/
def deferring (fin : σ → Ran σ ε Unit) (body : Eff σ ε α) : Eff σ ε α := fun s =>
  match body s with
  | ⟨o, s₁, e₁⟩ =>
    match fin s₁ with
    | ⟨_, s₂, e₂⟩ => ⟨o, s₂, e₁ ++ e₂⟩

end Eff

/-! ## The middleware chain -/

/-- Modelled from the spec: the embedded third-party router
`*httptreemux.TreeMux`, of which only registration is used by `app.go`: it
"records verb/path/handler tuples".  The function value registered by `Handle`
is a closure over the receiver `a` and the parameter `handler`; a route stores
the captured `handler`, and the captured pointer `a` is the App the route is
invoked on (see `App.Handle.h`). -/
structure Route (σ β : Type) where
  verb : String
  path : String
  handler : Handler σ β

/-- Source: `type App struct { *httptreemux.TreeMux; mw []Middleware }`. -/
structure App (σ β : Type) where
  TreeMux : List (Route σ β)
  mw : List (Middleware σ β)

variable {σ β : Type}

/-- Source: `func New() *App`: an empty router and the nil slice. -/
def New : App σ β := ⟨[], []⟩

/-- Source: `func (a *App) Use(mw ...Middleware) *App`,
`a.mw = append(a.mw, mw...); return a`.  The method returns its receiver, so
the value is the receiver in its new state and `a.Use(x).Use(y)` is
`(a.Use x).Use y`. -/
def App.Use (a : App σ β) (mw : List (Middleware σ β)) : App σ β :=
  { a with mw := a.mw ++ mw }

/-- The loop of `wrap`,
`for i := len(a.mw) - 1; i >= 0; i-- { h = a.mw[i](h) }`,
from the loop state `(i, h)`.  `reads` is a ghost variable: the indices at
which `a.mw` has been read so far, oldest first. -/
def wrapLoop (mw : List (Middleware σ β)) (i : Int) (h : Handler σ β)
    (reads : List Int) : Eff σ β (Handler σ β × List Int) :=
  if _hi : 0 ≤ i then
    match mw[i.toNat]? with
    | none => Eff.outOfRange
    | some m => do
      let h₁ ← Eff.call (m h)
      wrapLoop mw (i - 1) h₁ (reads ++ [i])
  else
    pure (h, reads)
termination_by (i + 1).toNat
decreasing_by omega

/-- Source: `func (a *App) wrap(h Handler) Handler`. -/
def App.wrap (a : App σ β) (h : Handler σ β) : Eff σ β (Handler σ β) := do
  let r ← wrapLoop a.mw ((a.mw.length : Int) - 1) h []
  pure r.1

/-! ## The dispatch adapter -/

/-- The calls the function mounted by `Handle` makes, as they appear in the
trace of a request.  `body b` is an event performed by handler or middleware
code, which the adapter does not look into; the other constructors are the
adapter's own calls. -/
inductive Event (β : Type) where
  | getSession (s : SessionHandle)
  | body (b : β)
  | contextError (e : GoError)
  | sessionClose (s : SessionHandle)
deriving DecidableEq, Repr

/-- Modelled from the spec: the functions `app.go` calls and does not define:
the session provider `GetSession()`, the identifier generator `uuid.New()`,
`Session.Close()` and `Context.Error(err)`.  Each is taken as a returning
function on the state. -/
structure Externals (σ : Type) where
  GetSession : σ → SessionHandle × σ
  uuidNew : σ → String × σ
  SessionClose : SessionHandle → σ → σ
  ContextError : Context → GoError → σ → σ

/-- The call `GetSession()`. -/
def GetSession (ext : Externals σ) : Eff σ (Event β) SessionHandle := fun s =>
  ⟨.ret (ext.GetSession s).1, (ext.GetSession s).2, [.getSession (ext.GetSession s).1]⟩

/-- The call `uuid.New()`. -/
def uuidNew (ext : Externals σ) : Eff σ (Event β) String := fun s =>
  ⟨.ret (ext.uuidNew s).1, (ext.uuidNew s).2, []⟩

/-- The call `c.Error(err)`. -/
def Context.Error (ext : Externals σ) (c : Context) (err : GoError) :
    Eff σ (Event β) Unit := fun s =>
  ⟨.ret (), ext.ContextError c err s, [.contextError err]⟩

/-- The call `c.Session.Close()`, with the receiver already evaluated. -/
def Session.Close (ext : Externals σ) (sess : SessionHandle) :
    σ → Ran σ (Event β) Unit := fun s =>
  ⟨(), ext.SessionClose sess s, [.sessionClose sess]⟩

/-- Source: the function literal `h` of `Handle`, "the function to execute for
each request".  `a` is the App as it is when the request is served. -/
def App.Handle.h (ext : Externals σ) (a : App σ β) (handler : Handler σ β)
    (w : Nat) (r : String) (p : List (String × String)) : Eff σ (Event β) Unit := do
  let sess ← GetSession ext
  let id ← uuidNew ext
  let c : Context :=
    { Session := sess, ResponseWriter := w, Request := r, Params := p, SessionID := id }
  Eff.deferring (Session.Close ext c.Session) (do
    let wrapped ← Eff.mapEvs Event.body (a.wrap handler)
    let err ← Eff.mapEvs Event.body (Eff.call (wrapped c))
    match err with
    | some e => Context.Error ext c e
    | none => pure ())

/-- Source: `func (a *App) Handle(verb, path string, handler Handler)`,
ending in `a.TreeMux.Handle(verb, path, h)`. -/
def App.Handle (a : App σ β) (verb path : String) (handler : Handler σ β) : App σ β :=
  { a with TreeMux := a.TreeMux ++ [⟨verb, path, handler⟩] }

/-- Serving a request on a registered route: the router calls the function
value it was given. -/
def Route.serve (ext : Externals σ) (a : App σ β) (rt : Route σ β)
    (w : Nat) (r : String) (p : List (String × String)) : Eff σ (Event β) Unit :=
  App.Handle.h ext a rt.handler w r p

/-! ## Specification-side definitions -/

/-- Following the spec's words, "m1(m2(...(mn(h))...))": the nested call
expression over the list `[m1, ..., mn]`.  As in Go, the argument of a call is
evaluated before the call, so the innermost application `mn(h)` runs first. -/
def nest : List (Middleware σ β) → Handler σ β → Eff σ β (Handler σ β)
  | [], h => pure h
  | m :: ms, h => do
    let inner ← nest ms h
    Eff.call (m inner)

/-- A middleware that is a pure decoration, `func(h Handler) Handler { return
func(c *Context) error { ... } }`: applying it only builds the new handler. -/
def Middleware.ofPure (f : Handler σ β → Handler σ β) : Middleware σ β :=
  fun h s => ⟨f h, s, []⟩

/-- The handler built by a middleware that records `entry`, calls its inner
handler, records `exit` and returns the inner handler's result. -/
def recording (entry exit : β) (h : Handler σ β) : Handler σ β := fun c s =>
  ⟨(h c s).val, (h c s).st, entry :: (h c s).evs ++ [exit]⟩

/-- The middleware list of recorders for a list of (entry, exit) labels. -/
def recorders (tags : List (β × β)) : List (Middleware σ β) :=
  tags.map fun t => Middleware.ofPure (recording t.1 t.2)

/-- Successive calls `a.Use(m1)`, ..., `a.Use(mn)`. -/
def useEach (a : App σ β) (ms : List (Middleware σ β)) : App σ β :=
  ms.foldl (fun acc m => acc.Use [m]) a

/-- The indices `k-1, ..., 1, 0`. -/
def downFrom (k : Nat) : List Int :=
  (List.range k).reverse.map Int.ofNat

/-- Number of `GetSession()` calls in a trace. -/
def acquisitions : List (Event β) → Nat
  | [] => 0
  | .getSession _ :: es => acquisitions es + 1
  | _ :: es => acquisitions es

/-- Number of `Session.Close()` calls in a trace. -/
def releases : List (Event β) → Nat
  | [] => 0
  | .sessionClose _ :: es => releases es + 1
  | _ :: es => releases es

/-- The arguments of the `Context.Error` calls in a trace, oldest first. -/
def errorCalls : List (Event β) → List GoError
  | [] => []
  | .contextError e :: es => e :: errorCalls es
  | _ :: es => errorCalls es

/-- The Context of a request: the composite literal of `Handle`, evaluated
from state `s`. -/
def requestContext (ext : Externals σ) (w : Nat) (r : String)
    (p : List (String × String)) (s : σ) : Context :=
  { Session := (ext.GetSession s).1, ResponseWriter := w, Request := r, Params := p,
    SessionID := (ext.uuidNew (ext.GetSession s).2).1 }

/-- The state in which `a.wrap(handler)` starts: after `GetSession()` and
`uuid.New()`. -/
def requestState (ext : Externals σ) (s : σ) : σ :=
  (ext.uuidNew (ext.GetSession s).2).2

/-- The expression `a.wrap(handler)(&c)` of the adapter, run by itself: what
the fully wrapped handler does and returns on the request's Context. -/
def wrappedRun (ext : Externals σ) (a : App σ β) (handler : Handler σ β)
    (w : Nat) (r : String) (p : List (String × String)) (s : σ) :
    Res σ β (Option GoError) :=
  (do
    let wrapped ← a.wrap handler
    Eff.call (wrapped (requestContext ext w r p s))) (requestState ext s)

/-- The adapter's own `Context.Error` call for a result of the wrapped
handler. -/
def errorPart : Outcome (Option GoError) → List (Event β)
  | .ret (some e) => [.contextError e]
  | _ => []

/-- Following the claim's words, "the handler wrapped with the list `ms`",
invoked for a request: the nested call `m1(...(mk(h))...)` over `ms`, then the
call of its result on the request's Context, from the state the adapter is in
after `GetSession()` and `uuid.New()`.  It is defined from `nest`, not from
`App.wrap` or the adapter. -/
def wrappedWith (ext : Externals σ) (ms : List (Middleware σ β)) (h : Handler σ β)
    (w : Nat) (r : String) (p : List (String × String)) (s : σ) :
    Res σ β (Option GoError) :=
  (nest ms h >>= fun wrapped => Eff.call (wrapped (requestContext ext w r p s)))
    (requestState ext s)

/-- The state a request ends in, given the run of the wrapped handler:
`Context.Error` has acted if an error was returned, then `Session.Close`. -/
def stateAfter (ext : Externals σ) (c : Context) (run : Res σ β (Option GoError)) : σ :=
  ext.SessionClose c.Session
    (match run.out with
    | .ret (some e) => ext.ContextError c e run.st
    | _ => run.st)

/-! ## Concrete inputs -/

/-- Externals on a counter: sessions are numbered from the counter. -/
def counterExt : Externals Nat where
  GetSession := fun n => (n, n + 1)
  uuidNew := fun n => ("id", n)
  SessionClose := fun _ n => n
  ContextError := fun _ _ n => n

/-- A handler that records `"handler body"` and returns `result`. -/
def bodyHandler (result : Option GoError) : Handler Nat String :=
  fun _ s => ⟨result, s, ["handler body"]⟩

/-- The middleware `Logging` of the example scenario. -/
def Logging : Middleware Nat String :=
  Middleware.ofPure (recording "Logging entry" "Logging exit")

/-- The middleware `Auth` of the example scenario. -/
def Auth : Middleware Nat String :=
  Middleware.ofPure (recording "Auth entry" "Auth exit")

/-- A Context to call a handler with outside a request. -/
def blankContext : Context :=
  { Session := 0, ResponseWriter := 0, Request := "", Params := [], SessionID := "" }

/-- A middleware that calls the handler it is given while it is applied,
`func(h Handler) Handler { h(&Context{}); return h }`. -/
def eager : Middleware Nat String := fun h s =>
  ⟨h, (h blankContext s).st, (h blankContext s).evs⟩

/-- A middleware whose handler calls the inner handler and drops its error,
`func(h Handler) Handler { return func(c *Context) error { h(c); return nil } }`. -/
def swallow : Middleware Nat String :=
  Middleware.ofPure fun h c s => ⟨none, (h c s).st, (h c s).evs⟩

/-! ## The effect monad -/

namespace Eff

variable {ε ε₂ α γ δ : Type}

theorem pure_eq (a : α) : (pure a : Eff σ ε α) = Eff.ret a := rfl

theorem bind_eq (m : Eff σ ε α) (f : α → Eff σ ε γ) : m >>= f = Eff.andThen m f := rfl

theorem ret_andThen (a : α) (f : α → Eff σ ε γ) : Eff.andThen (Eff.ret a) f = f a := by
  funext s
  simp [Eff.andThen, Eff.ret]

theorem andThen_ret (m : Eff σ ε α) : Eff.andThen m Eff.ret = m := by
  funext s
  unfold Eff.andThen Eff.ret
  rcases hm : m s with ⟨o, s₁, e₁⟩
  cases o <;> simp

theorem andThen_assoc (m : Eff σ ε α) (f : α → Eff σ ε γ) (g : γ → Eff σ ε δ) :
    Eff.andThen (Eff.andThen m f) g = Eff.andThen m fun a => Eff.andThen (f a) g := by
  funext s
  unfold Eff.andThen
  rcases hm : m s with ⟨o, s₁, e₁⟩
  cases o with
  | indexOutOfRange => simp
  | ret a =>
    simp only []
    rcases hf : f a s₁ with ⟨o₂, s₂, e₂⟩
    cases o₂ with
    | indexOutOfRange => simp
    | ret b =>
      simp only []
      rcases hg : g b s₂ with ⟨o₃, s₃, e₃⟩
      simp [List.append_assoc]

end Eff

/-! ## The chain as a nested call -/

theorem nest_nil (h : Handler σ β) : nest [] h = Eff.ret h := rfl

theorem nest_cons (m : Middleware σ β) (ms : List (Middleware σ β)) (h : Handler σ β) :
    nest (m :: ms) h = Eff.andThen (nest ms h) fun inner => Eff.call (m inner) := rfl

theorem nest_append (xs ys : List (Middleware σ β)) (h : Handler σ β) :
    nest (xs ++ ys) h = Eff.andThen (nest ys h) (nest xs) := by
  induction xs with
  | nil =>
    have : (nest ([] : List (Middleware σ β))) = Eff.ret := by
      funext k
      rfl
    rw [List.nil_append, this, Eff.andThen_ret]
  | cons m ms ih =>
    rw [List.cons_append, nest_cons, ih, Eff.andThen_assoc]
    rfl

theorem nest_singleton (m : Middleware σ β) (h : Handler σ β) :
    nest [m] h = Eff.call (m h) := by
  rw [nest_cons, nest_nil, Eff.ret_andThen]

theorem downFrom_succ (k : Nat) : downFrom (k + 1) = (k : Int) :: downFrom k := by
  simp [downFrom, List.range_succ]

theorem wrapLoop_neg (mw : List (Middleware σ β)) (h : Handler σ β) (reads : List Int) :
    wrapLoop mw (-1) h reads = Eff.ret (h, reads) := by
  rw [wrapLoop]
  rfl

theorem wrapLoop_step (mw : List (Middleware σ β)) (k : Nat) (m : Middleware σ β)
    (hm : mw[k]? = some m) (h : Handler σ β) (reads : List Int) :
    wrapLoop mw (k : Int) h reads =
      Eff.andThen (Eff.call (m h)) fun h₁ => wrapLoop mw ((k : Int) - 1) h₁ (reads ++ [(k : Int)]) := by
  rw [wrapLoop]
  simp only [Int.toNat_ofNat, hm, Int.ofNat_nonneg, dite_true]
  rfl

/-- The loop started at `i = k - 1` applies the first `k` middleware, last
first, and reads the indices `k-1, ..., 0`. -/
theorem wrapLoop_eq (mw : List (Middleware σ β)) (k : Nat) (hk : k ≤ mw.length) :
    ∀ (h : Handler σ β) (reads : List Int),
      wrapLoop mw ((k : Int) - 1) h reads =
        Eff.andThen (nest (mw.take k) h) fun w => Eff.ret (w, reads ++ downFrom k) := by
  induction k with
  | zero =>
    intro h reads
    simp only [Nat.cast_zero, zero_sub, List.take_zero]
    rw [wrapLoop_neg, nest_nil, Eff.ret_andThen]
    simp [downFrom]
  | succ k ih =>
    intro h reads
    have hlt : k < mw.length := hk
    have hm : mw[k]? = some mw[k] := List.getElem?_eq_getElem hlt
    have hcast : ((k + 1 : Nat) : Int) - 1 = (k : Int) := by omega
    rw [hcast, wrapLoop_step mw k _ hm]
    have htake : mw.take (k + 1) = mw.take k ++ [mw[k]] := by
      rw [List.take_succ, hm]
      rfl
    have hrest : (fun h₁ => wrapLoop mw ((k : Int) - 1) h₁ (reads ++ [(k : Int)])) =
        fun h₁ => Eff.andThen (nest (mw.take k) h₁) fun w =>
          Eff.ret (w, reads ++ downFrom (k + 1)) := by
      funext h₁
      rw [ih (Nat.le_of_lt hlt), downFrom_succ]
      simp
    rw [htake, nest_append, nest_singleton, Eff.andThen_assoc, hrest]

theorem wrapLoop_full (mw : List (Middleware σ β)) (h : Handler σ β) :
    wrapLoop mw ((mw.length : Int) - 1) h [] =
      Eff.andThen (nest mw h) fun w => Eff.ret (w, downFrom mw.length) := by
  rw [wrapLoop_eq mw mw.length (Nat.le_refl _), List.take_length]
  simp

theorem wrap_eq_nest (a : App σ β) (h : Handler σ β) : a.wrap h = nest a.mw h := by
  unfold App.wrap
  rw [Eff.bind_eq, wrapLoop_full, Eff.andThen_assoc]
  have : (fun w : Handler σ β =>
      Eff.andThen (Eff.ret (w, downFrom a.mw.length)) fun r => (pure r.1 : Eff σ β (Handler σ β)))
      = Eff.ret := by
    funext w
    rw [Eff.ret_andThen]
    rfl
  rw [this, Eff.andThen_ret]

theorem nest_returns (ms : List (Middleware σ β)) (h : Handler σ β) (s : σ) :
    ∃ w, (nest ms h s).out = .ret w := by
  induction ms with
  | nil => exact ⟨h, rfl⟩
  | cons m ms ih =>
    obtain ⟨w, hw⟩ := ih
    rw [nest_cons]
    unfold Eff.andThen Eff.call
    rcases hn : nest ms h s with ⟨o, s₁, e₁⟩
    rw [hn] at hw
    simp only at hw
    subst hw
    exact ⟨(m w s₁).val, rfl⟩

theorem call_ofPure (f : Handler σ β → Handler σ β) (h : Handler σ β) :
    Eff.call (Middleware.ofPure f h) = Eff.ret (f h) := rfl

theorem nest_ofPure (fs : List (Handler σ β → Handler σ β)) (h : Handler σ β) :
    nest (fs.map Middleware.ofPure) h = Eff.ret (fs.foldr (fun f acc => f acc) h) := by
  induction fs with
  | nil => rfl
  | cons f fs ih =>
    rw [List.map_cons, nest_cons, ih, Eff.ret_andThen, call_ofPure]
    rfl

theorem recording_apply (entry exit : β) (h : Handler σ β) (c : Context) (s : σ) :
    recording entry exit h c s = ⟨(h c s).val, (h c s).st, entry :: (h c s).evs ++ [exit]⟩ :=
  rfl

theorem foldr_recording (tags : List (β × β)) (h : Handler σ β) (c : Context) (s : σ) :
    (tags.map fun t => recording t.1 t.2).foldr (fun f acc => f acc) h c s =
      ⟨(h c s).val, (h c s).st,
        tags.map Prod.fst ++ (h c s).evs ++ (tags.map Prod.snd).reverse⟩ := by
  induction tags with
  | nil => simp
  | cons t ts ih =>
    simp only [List.map_cons, List.foldr_cons, List.reverse_cons]
    rw [recording_apply, ih]
    simp

theorem recorders_eq (tags : List (β × β)) :
    (recorders tags : List (Middleware σ β)) =
      (tags.map fun t => recording t.1 t.2).map Middleware.ofPure := by
  simp [recorders, List.map_map, Function.comp_def]

theorem useEach_mw (ms : List (Middleware σ β)) :
    ∀ a : App σ β, (useEach a ms).mw = a.mw ++ ms := by
  induction ms with
  | nil => intro a; simp [useEach]
  | cons m ms ih =>
    intro a
    have := ih (a.Use [m])
    simp only [useEach, List.foldl_cons] at this ⊢
    rw [this]
    simp [App.Use]

theorem useEach_TreeMux (ms : List (Middleware σ β)) :
    ∀ a : App σ β, (useEach a ms).TreeMux = a.TreeMux := by
  induction ms with
  | nil => intro a; rfl
  | cons m ms ih =>
    intro a
    have := ih (a.Use [m])
    simp only [useEach, List.foldl_cons] at this ⊢
    rw [this]
    rfl

/-! ## The trace of a request -/

theorem acquisitions_append (xs ys : List (Event β)) :
    acquisitions (xs ++ ys) = acquisitions xs + acquisitions ys := by
  induction xs with
  | nil => simp [acquisitions]
  | cons e es ih =>
    cases e <;> simp [acquisitions, ih]
    omega

theorem releases_append (xs ys : List (Event β)) :
    releases (xs ++ ys) = releases xs + releases ys := by
  induction xs with
  | nil => simp [releases]
  | cons e es ih =>
    cases e <;> simp [releases, ih]
    omega

theorem errorCalls_append (xs ys : List (Event β)) :
    errorCalls (xs ++ ys) = errorCalls xs ++ errorCalls ys := by
  induction xs with
  | nil => simp [errorCalls]
  | cons e es ih => cases e <;> simp [errorCalls, ih]

theorem acquisitions_body (bs : List β) : acquisitions (bs.map Event.body) = 0 := by
  induction bs with
  | nil => rfl
  | cons b bs ih => simpa [acquisitions] using ih

theorem releases_body (bs : List β) : releases (bs.map Event.body) = 0 := by
  induction bs with
  | nil => rfl
  | cons b bs ih => simpa [releases] using ih

theorem errorCalls_body (bs : List β) : errorCalls (bs.map Event.body) = [] := by
  induction bs with
  | nil => rfl
  | cons b bs ih => simpa [errorCalls] using ih

theorem wrappedRun_returns (ext : Externals σ) (a : App σ β) (handler : Handler σ β)
    (w : Nat) (r : String) (p : List (String × String)) (s : σ) :
    ∃ res, (wrappedRun ext a handler w r p s).out = .ret res := by
  unfold wrappedRun
  rw [Eff.bind_eq, wrap_eq_nest]
  obtain ⟨wr, hwr⟩ := nest_returns a.mw handler (requestState ext s)
  unfold Eff.andThen Eff.call
  rcases hn : nest a.mw handler (requestState ext s) with ⟨o, s₁, e₁⟩
  rw [hn] at hwr
  simp only at hwr
  subst hwr
  exact ⟨_, rfl⟩

/-- The trace of one run of the adapter: the acquisition, what the wrapped
handler did, the error call if it returned an error, the release. -/
theorem adapter_evs (ext : Externals σ) (a : App σ β) (handler : Handler σ β)
    (w : Nat) (r : String) (p : List (String × String)) (s : σ) :
    (App.Handle.h ext a handler w r p s).evs =
      Event.getSession (ext.GetSession s).1 ::
        ((wrappedRun ext a handler w r p s).evs.map Event.body ++
          errorPart (wrappedRun ext a handler w r p s).out ++
          [Event.sessionClose (ext.GetSession s).1]) := by
  unfold App.Handle.h wrappedRun
  simp only [Eff.bind_eq]
  unfold Eff.andThen Eff.deferring Eff.mapEvs Eff.call GetSession uuidNew Session.Close
    requestContext requestState
  simp only []
  rcases hw : a.wrap handler (ext.uuidNew (ext.GetSession s).2).2 with ⟨o, s₁, e₁⟩
  cases o with
  | indexOutOfRange => simp [errorPart]
  | ret wrapped =>
    simp only []
    rcases hh : wrapped _ s₁ with ⟨res, s₂, e₂⟩
    cases res with
    | none => simp [errorPart, Eff.pure_eq, Eff.ret]
    | some e => simp [errorPart, Context.Error]

theorem wrappedRun_eq (ext : Externals σ) (a : App σ β) (handler : Handler σ β)
    (w : Nat) (r : String) (p : List (String × String)) (s : σ) :
    wrappedRun ext a handler w r p s =
      Eff.andThen (nest a.mw handler) (fun wrapped => Eff.call (wrapped (requestContext ext w r p s)))
        (requestState ext s) := by
  unfold wrappedRun
  rw [Eff.bind_eq, wrap_eq_nest]

theorem errorCalls_adapter (ext : Externals σ) (a : App σ β) (handler : Handler σ β)
    (w : Nat) (r : String) (p : List (String × String)) (s : σ) :
    errorCalls (App.Handle.h ext a handler w r p s).evs =
      errorCalls (errorPart (wrappedRun ext a handler w r p s).out : List (Event β)) := by
  rw [adapter_evs]
  simp [errorCalls, errorCalls_append, errorCalls_body]

theorem adapter_depends_on_mw (ext : Externals σ) (a a₂ : App σ β) (hmw : a₂.mw = a.mw)
    (handler : Handler σ β) : App.Handle.h ext a₂ handler = App.Handle.h ext a handler := by
  unfold App.Handle.h App.wrap
  rw [hmw]

theorem adapter_evs_of_error (ext : Externals σ) (a : App σ β) (handler : Handler σ β)
    (w : Nat) (r : String) (p : List (String × String)) (s : σ) (e : GoError)
    (hret : (wrappedRun ext a handler w r p s).out = .ret (some e)) :
    (App.Handle.h ext a handler w r p s).evs =
      Event.getSession (ext.GetSession s).1 ::
        ((wrappedRun ext a handler w r p s).evs.map Event.body ++
          [Event.contextError e, Event.sessionClose (ext.GetSession s).1]) := by
  rw [adapter_evs, hret]
  simp [errorPart]

/-- The whole result of one run of the adapter, in terms of the run of the
wrapped handler. -/
theorem adapter_run (ext : Externals σ) (a : App σ β) (handler : Handler σ β)
    (w : Nat) (r : String) (p : List (String × String)) (s : σ) :
    App.Handle.h ext a handler w r p s =
      ⟨.ret (), stateAfter ext (requestContext ext w r p s) (wrappedRun ext a handler w r p s),
        Event.getSession (ext.GetSession s).1 ::
          ((wrappedRun ext a handler w r p s).evs.map Event.body ++
            errorPart (wrappedRun ext a handler w r p s).out ++
            [Event.sessionClose (ext.GetSession s).1])⟩ := by
  obtain ⟨res, hres⟩ := wrappedRun_returns ext a handler w r p s
  revert hres
  unfold App.Handle.h wrappedRun stateAfter
  simp only [Eff.bind_eq]
  unfold Eff.andThen Eff.deferring Eff.mapEvs Eff.call GetSession uuidNew Session.Close
    requestContext requestState
  simp only []
  rcases hw : a.wrap handler (ext.uuidNew (ext.GetSession s).2).2 with ⟨o, s₁, e₁⟩
  cases o with
  | indexOutOfRange => simp
  | ret wrapped =>
    simp only []
    rcases hh : wrapped _ s₁ with ⟨res₂, s₂, e₂⟩
    cases res₂ with
    | none => simp [errorPart, Eff.pure_eq, Eff.ret]
    | some e => simp [errorPart, Context.Error]

theorem wrappedRun_eq_wrappedWith (ext : Externals σ) (a : App σ β) (handler : Handler σ β)
    (w : Nat) (r : String) (p : List (String × String)) (s : σ) :
    wrappedRun ext a handler w r p s = wrappedWith ext a.mw handler w r p s := by
  rw [wrappedRun_eq]
  rfl

/-! ## The claims -/

/-- C1: for a middleware list `[m1, ..., mn]` built by successive `Use` calls,
`wrap(h)` is the nested call `m1(m2(...(mn(h))...))`; when each `mi` records an
entry event before calling its inner handler and an exit event after it,
`wrap(h)` performs no event itself and the handler it returns performs the
entries in registration order, then what `h` does, then the exits in reverse
registration order; for `[A, B, C]` the order in is A, B, C and the order out
is C, B, A. -/
theorem wrap_nests_in_registration_order :
    (∀ (σ β : Type) (a : App σ β) (ms : List (Middleware σ β)) (h : Handler σ β),
      (useEach (New : App σ β) ms).wrap h = nest ms h ∧
      (useEach a ms).wrap h = nest (a.mw ++ ms) h) ∧
    (∀ (σ β : Type) (tags : List (β × β)) (h : Handler σ β) (s : σ),
      ∃ wrapped, (useEach (New : App σ β) (recorders tags)).wrap h s = ⟨.ret wrapped, s, []⟩ ∧
        ∀ c s₁, wrapped c s₁ =
          ⟨(h c s₁).val, (h c s₁).st,
            tags.map Prod.fst ++ (h c s₁).evs ++ (tags.map Prod.snd).reverse⟩) ∧
    (∃ wrapped,
      (useEach (New : App Nat String)
          (recorders [("A in", "A out"), ("B in", "B out"), ("C in", "C out")])).wrap
        (bodyHandler none) 0 = ⟨.ret wrapped, 0, []⟩ ∧
      (wrapped blankContext 0).evs =
        ["A in", "B in", "C in", "handler body", "C out", "B out", "A out"]) := by
  have hgen : ∀ (σ β : Type) (tags : List (β × β)) (h : Handler σ β) (s : σ),
      ∃ wrapped, (useEach (New : App σ β) (recorders tags)).wrap h s = ⟨.ret wrapped, s, []⟩ ∧
        ∀ c s₁, wrapped c s₁ =
          ⟨(h c s₁).val, (h c s₁).st,
            tags.map Prod.fst ++ (h c s₁).evs ++ (tags.map Prod.snd).reverse⟩ := by
    intro σ β tags h s
    refine ⟨(tags.map fun t => recording t.1 t.2).foldr (fun f acc => f acc) h, ?_, ?_⟩
    · have hnew : (New : App σ β).mw = [] := rfl
      rw [wrap_eq_nest, useEach_mw, recorders_eq, hnew, List.nil_append, nest_ofPure]
      rfl
    · intro c s₁
      exact foldr_recording tags h c s₁
  refine ⟨?_, hgen, ?_⟩
  · intro σ β a ms h
    constructor
    · rw [wrap_eq_nest, useEach_mw]
      rfl
    · rw [wrap_eq_nest, useEach_mw]
  · obtain ⟨wrapped, hw, hev⟩ := hgen Nat String
      [("A in", "A out"), ("B in", "B out"), ("C in", "C out")] (bodyHandler none) 0
    refine ⟨wrapped, hw, ?_⟩
    rw [hev]
    rfl

/-- C2: one invocation of a route's adapter, for every middleware list
(the empty one included) and every handler, performs exactly one session
acquisition and exactly one session release; the wrapped handler returns, with
`nil` or with an error, and the release is the last event, after everything the
wrapped handler did. -/
theorem one_acquisition_one_release (ext : Externals σ) (a : App σ β) (verb path : String)
    (handler : Handler σ β) (w : Nat) (r : String) (p : List (String × String)) (s : σ) :
    (⟨verb, path, handler⟩ : Route σ β) ∈ (a.Handle verb path handler).TreeMux ∧
    acquisitions (Route.serve ext (a.Handle verb path handler) ⟨verb, path, handler⟩ w r p s).evs
      = 1 ∧
    releases (Route.serve ext (a.Handle verb path handler) ⟨verb, path, handler⟩ w r p s).evs
      = 1 ∧
    ∃ res, (wrappedRun ext a handler w r p s).out = .ret res ∧
      (Route.serve ext (a.Handle verb path handler) ⟨verb, path, handler⟩ w r p s).evs =
        Event.getSession (ext.GetSession s).1 ::
          ((wrappedRun ext a handler w r p s).evs.map Event.body ++ errorPart (.ret res)) ++
        [Event.sessionClose (ext.GetSession s).1] := by
  obtain ⟨res, hres⟩ := wrappedRun_returns ext a handler w r p s
  have hsame : wrappedRun ext (a.Handle verb path handler) handler w r p s =
      wrappedRun ext a handler w r p s := by
    rw [wrappedRun_eq, wrappedRun_eq]
    rfl
  have hev := adapter_evs ext (a.Handle verb path handler) handler w r p s
  rw [hsame, hres] at hev
  refine ⟨by simp [App.Handle], ?_, ?_, res, hres, ?_⟩
  · show acquisitions (App.Handle.h ext _ handler w r p s).evs = 1
    rw [hev]
    cases res with
    | none => simp [acquisitions, acquisitions_append, acquisitions_body, errorPart]
    | some e => simp [acquisitions, acquisitions_append, acquisitions_body, errorPart]
  · show releases (App.Handle.h ext _ handler w r p s).evs = 1
    rw [hev]
    cases res with
    | none => simp [releases, releases_append, releases_body, errorPart]
    | some e => simp [releases, releases_append, releases_body, errorPart]
  · show (App.Handle.h ext _ handler w r p s).evs = _
    rw [hev]
    simp

/-- C3: in one invocation of a route's adapter, `Context.Error` is called
exactly once, with `err`, if and only if the fully wrapped handler
`a.wrap(handler)` returns the non-nil `err` on the request's Context, and it is
not called at all if and only if the wrapped handler returns `nil`. -/
theorem Context_Error_called_iff_wrapped_handler_fails (ext : Externals σ) (a : App σ β)
    (handler : Handler σ β) (w : Nat) (r : String) (p : List (String × String)) (s : σ) :
    (∀ err, errorCalls (App.Handle.h ext a handler w r p s).evs = [err] ↔
      (wrappedRun ext a handler w r p s).out = .ret (some err)) ∧
    (errorCalls (App.Handle.h ext a handler w r p s).evs = [] ↔
      (wrappedRun ext a handler w r p s).out = .ret none) := by
  obtain ⟨res, hres⟩ := wrappedRun_returns ext a handler w r p s
  rw [errorCalls_adapter, hres]
  cases res with
  | none => simp [errorPart, errorCalls]
  | some e => simp [errorPart, errorCalls]

/-- C4: `a.Use(m1, ..., mk)` leaves the middleware list equal to the old list
followed by `m1, ..., mk` in argument order (for `k = 0` the list is
unchanged), leaves the embedded router unchanged, and `a.Use(x).Use(y)`
produces the same App as `a.Use(x, y)`. -/
theorem Use_appends_in_argument_order (a : App σ β) (ms xs ys : List (Middleware σ β)) :
    (a.Use ms).mw = a.mw ++ ms ∧
    (a.Use ms).TreeMux = a.TreeMux ∧
    a.Use [] = a ∧
    (a.Use xs).Use ys = a.Use (xs ++ ys) := by
  refine ⟨rfl, rfl, ?_, ?_⟩
  · simp [App.Use]
  · simp [App.Use]

/-- C5: middleware is applied at dispatch time: when `Handle(verb, path, h)` is
called while the middleware list is `L` and `Use(M)` is called afterwards, the
route is still registered, and a later invocation of its adapter acquires the
session, runs `h` wrapped with `L` followed by `M` (the nested call over
`L ++ M`, invoked on the request's Context), calls `Context.Error` on its
error if any, and closes the session: outcome, final state and trace of the
request are those of `h` wrapped with `L ++ M`.  With `L = [Logging]` and
`M = [Auth]` the request goes through `Logging` and `Auth`, and with `L`
empty and `M = [Logging]` through `Logging`, which wrapping with `L` alone
does not do. -/
theorem middleware_applied_at_dispatch (ext : Externals σ) (a : App σ β) (verb path : String)
    (h : Handler σ β) (M : List (Middleware σ β)) (w : Nat) (r : String)
    (p : List (String × String)) (s : σ) :
    (⟨verb, path, h⟩ : Route σ β) ∈ ((a.Handle verb path h).Use M).TreeMux ∧
    ((a.Handle verb path h).Use M).mw = a.mw ++ M ∧
    Route.serve ext ((a.Handle verb path h).Use M) ⟨verb, path, h⟩ w r p s =
      ⟨.ret (),
        stateAfter ext (requestContext ext w r p s) (wrappedWith ext (a.mw ++ M) h w r p s),
        Event.getSession (ext.GetSession s).1 ::
          ((wrappedWith ext (a.mw ++ M) h w r p s).evs.map Event.body ++
            errorPart (wrappedWith ext (a.mw ++ M) h w r p s).out ++
            [Event.sessionClose (ext.GetSession s).1])⟩ ∧
    (∃ res, (wrappedWith ext (a.mw ++ M) h w r p s).out = .ret res) ∧
    Route.serve ext ((a.Handle verb path h).Use M) ⟨verb, path, h⟩ w r p s =
      App.Handle.h ext ⟨a.TreeMux, a.mw ++ M⟩ h w r p s ∧
    wrappedRun ext ((a.Handle verb path h).Use M) h w r p s =
      (nest (a.mw ++ M) h >>= fun wrapped => Eff.call (wrapped (requestContext ext w r p s)))
        (requestState ext s) ∧
    (Route.serve counterExt
        ((((New : App Nat String).Use [Logging]).Handle "GET" "/" (bodyHandler none)).Use [Auth])
        ⟨"GET", "/", bodyHandler none⟩ 0 "" [] 0).evs =
      [.getSession 0, .body "Logging entry", .body "Auth entry", .body "handler body",
        .body "Auth exit", .body "Logging exit", .sessionClose 0] ∧
    (Route.serve counterExt
        (((New : App Nat String).Use [Logging]).Handle "GET" "/" (bodyHandler none))
        ⟨"GET", "/", bodyHandler none⟩ 0 "" [] 0).evs =
      [.getSession 0, .body "Logging entry", .body "handler body", .body "Logging exit",
        .sessionClose 0] ∧
    (Route.serve counterExt (((New : App Nat String).Handle "GET" "/" (bodyHandler none)).Use
        [Logging]) ⟨"GET", "/", bodyHandler none⟩ 0 "" [] 0).evs =
      [.getSession 0, .body "Logging entry", .body "handler body", .body "Logging exit",
        .sessionClose 0] ∧
    (Route.serve counterExt ((New : App Nat String).Handle "GET" "/" (bodyHandler none))
        ⟨"GET", "/", bodyHandler none⟩ 0 "" [] 0).evs =
      [.getSession 0, .body "handler body", .sessionClose 0] := by
  have hmw : wrappedRun ext ((a.Handle verb path h).Use M) h w r p s =
      wrappedWith ext (a.mw ++ M) h w r p s :=
    wrappedRun_eq_wrappedWith ext ((a.Handle verb path h).Use M) h w r p s
  refine ⟨by simp [App.Handle, App.Use], rfl, ?_, ?_, ?_, ?_, ?_, ?_, ?_, ?_⟩
  · show App.Handle.h ext _ h w r p s = _
    rw [adapter_run, hmw]
  · rw [← hmw]
    exact wrappedRun_returns ext _ h w r p s
  · show App.Handle.h ext _ h w r p s = _
    rw [adapter_depends_on_mw ext ⟨a.TreeMux, a.mw ++ M⟩ ((a.Handle verb path h).Use M) rfl]
  · rw [wrappedRun_eq]
    rfl
  · show (App.Handle.h counterExt _ _ 0 "" [] 0).evs = _
    rw [adapter_evs, wrappedRun_eq]
    rfl
  · show (App.Handle.h counterExt _ _ 0 "" [] 0).evs = _
    rw [adapter_evs, wrappedRun_eq]
    rfl
  · show (App.Handle.h counterExt _ _ 0 "" [] 0).evs = _
    rw [adapter_evs, wrappedRun_eq]
    rfl
  · show (App.Handle.h counterExt _ _ 0 "" [] 0).evs = _
    rw [adapter_evs, wrappedRun_eq]
    rfl

/-- C6, as stated, fails: with the middleware `swallow` registered, a handler
that returns `ErrNotFound` whenever it is invoked is invoked by the adapter
(its event is in the trace), and `Context.Error` is not called. -/
theorem swallowed_error_is_not_handed_over :
    (∀ c s, (bodyHandler (some ErrNotFound) c s).val = some ErrNotFound) ∧
    (App.Handle.h counterExt ((New : App Nat String).Use [swallow])
        (bodyHandler (some ErrNotFound)) 0 "" [] 0).evs =
      [.getSession 0, .body "handler body", .sessionClose 0] ∧
    errorCalls (App.Handle.h counterExt ((New : App Nat String).Use [swallow])
        (bodyHandler (some ErrNotFound)) 0 "" [] 0).evs = [] := by
  have hev : (App.Handle.h counterExt ((New : App Nat String).Use [swallow])
        (bodyHandler (some ErrNotFound)) 0 "" [] 0).evs =
      [.getSession 0, .body "handler body", .sessionClose 0] := by
    rw [adapter_evs, wrappedRun_eq]
    rfl
  refine ⟨fun _ _ => rfl, hev, ?_⟩
  rw [hev]
  rfl

/-- C6, amended: for every middleware list registered on the App and every
handler registered with `Handle`, if the fully wrapped handler
`a.wrap(handler)` returns a non-nil error `e` on the request's Context, then
the adapter hands `e` to `Context.Error`: it is the one `Context.Error` call of
the invocation, made after everything the wrapped handler did and right before
the session is closed. -/
theorem wrapped_error_is_handed_to_Context_Error (ext : Externals σ) (a : App σ β)
    (handler : Handler σ β) (w : Nat) (r : String) (p : List (String × String)) (s : σ)
    (e : GoError) (hret : (wrappedRun ext a handler w r p s).out = .ret (some e)) :
    errorCalls (App.Handle.h ext a handler w r p s).evs = [e] ∧
    (App.Handle.h ext a handler w r p s).evs =
      Event.getSession (ext.GetSession s).1 ::
        ((wrappedRun ext a handler w r p s).evs.map Event.body ++
          [Event.contextError e, Event.sessionClose (ext.GetSession s).1]) := by
  refine ⟨?_, adapter_evs_of_error ext a handler w r p s e hret⟩
  rw [errorCalls_adapter, hret]
  rfl

/-- The amended C6 at a concrete request: `Logging` and `Auth` registered, a
handler returning `ErrNotFound`. -/
theorem wrapped_error_is_handed_to_Context_Error_witness :
    (wrappedRun counterExt ((New : App Nat String).Use [Logging, Auth])
        (bodyHandler (some ErrNotFound)) 0 "" [] 0).out = .ret (some ErrNotFound) ∧
    errorCalls (App.Handle.h counterExt ((New : App Nat String).Use [Logging, Auth])
        (bodyHandler (some ErrNotFound)) 0 "" [] 0).evs = [ErrNotFound] :=
  have hret : (wrappedRun counterExt ((New : App Nat String).Use [Logging, Auth])
      (bodyHandler (some ErrNotFound)) 0 "" [] 0).out = .ret (some ErrNotFound) := by
    rw [wrappedRun_eq]
    rfl
  ⟨hret, (wrapped_error_is_handed_to_Context_Error counterExt _ _ 0 "" [] 0 ErrNotFound hret).1⟩

/-- C7: with `Logging` then `Auth` registered and a route `GET /items/:id`
whose handler returns `ErrNotFound`, one invocation of the route's adapter
produces exactly: session acquired, Logging entry, Auth entry, handler body,
Auth exit, Logging exit, `Context.Error(ErrNotFound)`, session close; and in
general, when the wrapped handler returns an error `e`, the trace is the
acquisition, everything the wrapped handler (outermost middleware included)
did, the call `Context.Error(e)`, the session close. -/
theorem not_found_scenario_trace :
    (Route.serve counterExt
        ((((New : App Nat String).Use [Logging]).Use [Auth]).Handle "GET" "/items/:id"
          (bodyHandler (some ErrNotFound)))
        ⟨"GET", "/items/:id", bodyHandler (some ErrNotFound)⟩ 0 "GET /items/42"
        [("id", "42")] 0).evs =
      [.getSession 0, .body "Logging entry", .body "Auth entry", .body "handler body",
        .body "Auth exit", .body "Logging exit", .contextError ErrNotFound,
        .sessionClose 0] ∧
    (⟨"GET", "/items/:id", bodyHandler (some ErrNotFound)⟩ : Route Nat String) ∈
      ((((New : App Nat String).Use [Logging]).Use [Auth]).Handle "GET" "/items/:id"
          (bodyHandler (some ErrNotFound))).TreeMux ∧
    ∀ (σ β : Type) (ext : Externals σ) (a : App σ β) (handler : Handler σ β) (w : Nat)
      (r : String) (p : List (String × String)) (s : σ) (e : GoError),
      (wrappedRun ext a handler w r p s).out = .ret (some e) →
      (App.Handle.h ext a handler w r p s).evs =
        Event.getSession (ext.GetSession s).1 ::
          ((wrappedRun ext a handler w r p s).evs.map Event.body ++
            [Event.contextError e, Event.sessionClose (ext.GetSession s).1]) := by
  refine ⟨?_, by simp [App.Handle, App.Use, New], ?_⟩
  · show (App.Handle.h counterExt _ _ 0 "GET /items/42" [("id", "42")] 0).evs = _
    rw [adapter_evs, wrappedRun_eq]
    rfl
  · intro σ β ext a handler w r p s e hret
    exact adapter_evs_of_error ext a handler w r p s e hret

/-- C8, as stated, fails: with the middleware `eager` registered, which calls
the handler it is given while it is applied, `a.wrap(h)` itself runs `h`: the
event of `h` is performed by the call of `wrap`, before the returned handler
is ever invoked. -/
theorem wrap_runs_handler_under_eager_middleware :
    (((New : App Nat String).Use [eager]).wrap (bodyHandler none) 0).evs = ["handler body"] := by
  rw [wrap_eq_nest]
  rfl

/-- C8, amended: for every App whose middleware are pure decorators (applying
one only builds the new handler) and every handler `h`, calling `a.wrap(h)`
performs no event and leaves the state unchanged, so it runs neither `h` nor
anything of the composed handler; it reads only the middleware list of `a`;
and two calls, from whatever states, return the same handler, the decorators
nested in registration order. -/
theorem wrap_of_pure_decorators_is_pure (a : App σ β)
    (fs : List (Handler σ β → Handler σ β)) (ha : a.mw = fs.map Middleware.ofPure)
    (h : Handler σ β) (s s₂ : σ) :
    a.wrap h s = ⟨.ret (fs.foldr (fun f acc => f acc) h), s, []⟩ ∧
    a.wrap h s₂ = ⟨.ret (fs.foldr (fun f acc => f acc) h), s₂, []⟩ ∧
    ∀ a₂ : App σ β, a₂.mw = a.mw → a₂.wrap h = a.wrap h := by
  refine ⟨?_, ?_, ?_⟩
  · rw [wrap_eq_nest, ha, nest_ofPure]
    rfl
  · rw [wrap_eq_nest, ha, nest_ofPure]
    rfl
  · intro a₂ h₂
    rw [wrap_eq_nest, wrap_eq_nest, h₂]

/-- The amended C8 at a concrete App: `Logging` and `Auth` are pure
decorators. -/
theorem wrap_of_pure_decorators_is_pure_witness :
    ((New : App Nat String).Use [Logging, Auth]).mw =
      [recording "Logging entry" "Logging exit", recording "Auth entry" "Auth exit"].map
        Middleware.ofPure ∧
    (((New : App Nat String).Use [Logging, Auth]).wrap (bodyHandler none) 7).evs = [] :=
  ⟨rfl, by
    rw [(wrap_of_pure_decorators_is_pure ((New : App Nat String).Use [Logging, Auth])
      [recording "Logging entry" "Logging exit", recording "Auth entry" "Auth exit"] rfl
      (bodyHandler none) 7 7).1]⟩

/-- C9: wrapping `h` with the list `xs` followed by `ys` is wrapping with `xs`
the result of wrapping `h` with `ys` (also when `ys` is added by `Use`);
wrapping with the empty list returns `h` itself, and wrapping with `[m]`
returns `m(h)`. -/
theorem wrap_distributes_over_append (T : List (Route σ β)) (xs ys : List (Middleware σ β))
    (m : Middleware σ β) (h : Handler σ β) :
    (App.mk T (xs ++ ys)).wrap h = ((App.mk T ys).wrap h >>= (App.mk T xs).wrap) ∧
    ((App.mk T xs).Use ys).wrap h = ((App.mk T ys).wrap h >>= (App.mk T xs).wrap) ∧
    (App.mk T []).wrap h = pure h ∧
    (App.mk T [m]).wrap h = Eff.call (m h) := by
  have hfun : (App.mk T xs).wrap = nest xs := by
    funext k
    rw [wrap_eq_nest]
  refine ⟨?_, ?_, ?_, ?_⟩
  · rw [wrap_eq_nest, wrap_eq_nest, hfun, Eff.bind_eq]
    exact nest_append xs ys h
  · rw [wrap_eq_nest, wrap_eq_nest, hfun, Eff.bind_eq]
    exact nest_append xs ys h
  · rw [wrap_eq_nest]
    rfl
  · rw [wrap_eq_nest]
    exact nest_singleton m h

/-- C10: for a middleware list of length `n`, the loop of `wrap` returns (it
never reads out of range) after reading exactly the `n` indices
`n-1, ..., 1, 0` in this order, each of them within `0 <= i < n`, and what it
returns is the list applied last-registered first, each middleware once; for
`n = 0` the start index is `-1` and the body never runs. -/
theorem wrap_loop_reads_each_index_once (T : List (Route σ β))
    (mw : List (Middleware σ β)) (h : Handler σ β) (s : σ) :
    (∃ wrapped,
      (wrapLoop mw ((mw.length : Int) - 1) h [] s).out = .ret (wrapped, downFrom mw.length) ∧
      ((App.mk T mw).wrap h s).out = .ret wrapped ∧
      (nest mw h s).out = .ret wrapped) ∧
    (downFrom mw.length).length = mw.length ∧
    (∀ i ∈ downFrom mw.length, 0 ≤ i ∧ i < (mw.length : Int)) ∧
    (∀ j : Nat, j < mw.length →
      (downFrom mw.length)[j]? = some ((mw.length : Int) - 1 - (j : Int))) ∧
    wrapLoop ([] : List (Middleware σ β)) (((([] : List (Middleware σ β)).length : Nat) : Int) - 1)
      h [] s = ⟨.ret (h, []), s, []⟩ := by
  refine ⟨?_, ?_, ?_, ?_, ?_⟩
  · obtain ⟨wrapped, hw⟩ := nest_returns mw h s
    refine ⟨wrapped, ?_, ?_, hw⟩
    · rw [wrapLoop_full]
      unfold Eff.andThen Eff.ret
      rcases hn : nest mw h s with ⟨o, s₁, e₁⟩
      rw [hn] at hw
      simp only at hw
      subst hw
      rfl
    · rw [wrap_eq_nest]
      exact hw
  · simp [downFrom]
  · intro i hi
    simp only [downFrom, List.mem_map, List.mem_reverse, List.mem_range] at hi
    obtain ⟨k, hk, rfl⟩ := hi
    constructor
    · exact Int.ofNat_nonneg k
    · exact Int.ofNat_lt.mpr hk
  · intro j hj
    simp only [downFrom, List.getElem?_map]
    rw [List.getElem?_reverse (by simpa using hj)]
    simp only [List.length_range]
    rw [List.getElem?_range (by omega)]
    simp only [Option.map_some']
    congr 1
    show ((mw.length - 1 - j : Nat) : Int) = _
    omega
  · simp only [List.length_nil, Nat.cast_zero, zero_sub]
    rw [wrapLoop_neg]
    rfl

end GoTraining
